import Mathlib

/-!
Verification of the git-gasset core: the manifest-selection algorithm
(`findPreviousSnapshotManifest` in cmd/snap.go), the snapshot commit phase
(`snapshotSingleSource`), the multi-source snapshot loop (`createSnapshot`),
the repository creation path (`createRepo` / `ensureEmpty` in cmd/init.go),
the random-identity generator (`GenerateRandomString` in util/rand.go) and
the git-root locator (`GetGitWorkingDirectory` in util/config.go).

Go code is shallowly embedded: pure algorithms become Lean functions; the
effectful steps (backend calls, file writes) are modelled by explicit result
parameters and by traces of the completed steps, so ordering and skipping
behaviour is visible in the theorems.
-/

namespace GitGasset

/-- A snapshot manifest, as used by `findPreviousSnapshotManifest` and
`snapshotSingleSource` in cmd/snap.go: `IncompleteReason` (empty means the
snapshot is complete), `StartTime` (an `fs.UTCTimestamp`, an int64 whose
zero value is the sentinel "earliest possible" time; `After` is strict `>`),
and the content root object id compared by the skip-if-identical check. -/
structure Manifest where
  incompleteReason : String
  startTime : Int
  rootObjectID : String
  deriving Repr, DecidableEq

/-- The condition `previousComplete == nil || manifest.StartTime.After(previousComplete.StartTime)`
from the first loop of `findPreviousSnapshotManifest` (cmd/snap.go line 185). -/
def beats : Option Manifest → Manifest → Bool
  | none, _ => true
  | some p, m => decide (p.startTime < m.startTime)

/-- One iteration of the first loop of `findPreviousSnapshotManifest`: the
state is the pair (`previousComplete`, `previousCompleteStartTime`), updated
when the manifest is complete and beats the current candidate. -/
def baselineStep (st : Option Manifest × Int) (m : Manifest) : Option Manifest × Int :=
  if m.incompleteReason = "" ∧ beats st.1 m = true then (some m, m.startTime) else st

/-- The first loop of `findPreviousSnapshotManifest`: starting from
`previousComplete = nil` and the zero timestamp, scan all manifests. -/
def findBaseline (ms : List Manifest) : Option Manifest × Int :=
  ms.foldl baselineStep (none, 0)

/-- `findPreviousSnapshotManifest` (cmd/snap.go lines 172-202): the baseline
(if any) followed by every incomplete manifest whose start time is strictly
after `previousCompleteStartTime`, in input order. -/
def findPreviousSnapshotManifest (ms : List Manifest) : List Manifest :=
  (match (findBaseline ms).1 with
   | none => []
   | some p => [p]) ++
  ms.filter (fun m => decide (m.incompleteReason ≠ "" ∧ (findBaseline ms).2 < m.startTime))

end GitGasset

namespace GitGasset

lemma baselineStep_incomplete (st : Option Manifest × Int) (m : Manifest)
    (h : m.incompleteReason ≠ "") : baselineStep st m = st := by
  unfold baselineStep
  simp [h]

lemma foldl_baselineStep_all_incomplete (ms : List Manifest)
    (h : ∀ m ∈ ms, m.incompleteReason ≠ "") (st : Option Manifest × Int) :
    ms.foldl baselineStep st = st := by
  induction ms generalizing st with
  | nil => rfl
  | cons x rest ih =>
    rw [List.foldl_cons, baselineStep_incomplete st x (h x (by simp))]
    exact ih (fun m hm => h m (by simp [hm])) st

/-- Invariant of the first loop once a complete candidate `b` is installed:
the final candidate `res` is either `b` itself (when nothing later strictly
beats it) or the first element of a decomposition whose earlier complete
elements are all strictly below `res` and later ones at most `res`. -/
lemma foldl_baselineStep_some (ms : List Manifest) : ∀ b : Manifest,
    ∃ res : Manifest,
      ms.foldl baselineStep (some b, b.startTime) = (some res, res.startTime) ∧
      ((res = b ∧ ∀ x ∈ ms, x.incompleteReason = "" → x.startTime ≤ b.startTime) ∨
       (∃ l₁ l₂, ms = l₁ ++ res :: l₂ ∧ res.incompleteReason = "" ∧
          b.startTime < res.startTime ∧
          (∀ x ∈ l₁, x.incompleteReason = "" → x.startTime < res.startTime) ∧
          (∀ x ∈ l₂, x.incompleteReason = "" → x.startTime ≤ res.startTime))) := by
  induction ms with
  | nil =>
    intro b
    exact ⟨b, rfl, Or.inl ⟨rfl, by simp⟩⟩
  | cons x rest ih =>
    intro b
    rw [List.foldl_cons]
    by_cases hx : x.incompleteReason = "" ∧ beats (some b) x = true
    · have hb : b.startTime < x.startTime := by
        have := hx.2
        simpa [beats] using this
      have hstep : baselineStep (some b, b.startTime) x = (some x, x.startTime) := by
        unfold baselineStep
        simp [hx.1, hx.2]
      rw [hstep]
      obtain ⟨res, hfold, hcase⟩ := ih x
      refine ⟨res, hfold, ?_⟩
      rcases hcase with ⟨heq, hall⟩ | ⟨l₁, l₂, hms, hc, hlt, h₁, h₂⟩
      · subst heq
        exact Or.inr ⟨[], rest, rfl, hx.1, hb, by simp, hall⟩
      · refine Or.inr ⟨x :: l₁, l₂, by simp [hms], hc, lt_trans hb hlt, ?_, h₂⟩
        intro y hy hyc
        rcases List.mem_cons.mp hy with rfl | hy'
        · exact hlt
        · exact h₁ y hy' hyc
    · have hstep : baselineStep (some b, b.startTime) x = (some b, b.startTime) := by
        unfold baselineStep
        simp only [if_neg hx]
      rw [hstep]
      obtain ⟨res, hfold, hcase⟩ := ih b
      refine ⟨res, hfold, ?_⟩
      have hxle : x.incompleteReason = "" → x.startTime ≤ b.startTime := by
        intro hxc
        by_contra hgt
        exact hx ⟨hxc, by simp [beats]; omega⟩
      rcases hcase with ⟨rfl, hall⟩ | ⟨l₁, l₂, hms, hc, hlt, h₁, h₂⟩
      · refine Or.inl ⟨rfl, ?_⟩
        intro y hy hyc
        rcases List.mem_cons.mp hy with rfl | hy'
        · exact hxle hyc
        · exact hall y hy' hyc
      · refine Or.inr ⟨x :: l₁, l₂, by simp [hms], hc, hlt, ?_, h₂⟩
        intro y hy hyc
        rcases List.mem_cons.mp hy with rfl | hy'
        · exact lt_of_le_of_lt (hxle hyc) hlt
        · exact h₁ y hy' hyc

/-- Characterisation of the first loop of `findPreviousSnapshotManifest`:
with no complete manifest the sentinel state survives; otherwise the final
candidate is the first complete manifest that attains the maximal start
time (earlier complete manifests are strictly below it, later ones at most
equal). -/
lemma findBaseline_spec (ms : List Manifest) :
    ((∀ m ∈ ms, m.incompleteReason ≠ "") → findBaseline ms = (none, 0)) ∧
    ((∃ m ∈ ms, m.incompleteReason = "") →
      ∃ b l₁ l₂, ms = l₁ ++ b :: l₂ ∧ b.incompleteReason = "" ∧
        (∀ m ∈ l₁, m.incompleteReason = "" → m.startTime < b.startTime) ∧
        (∀ m ∈ l₂, m.incompleteReason = "" → m.startTime ≤ b.startTime) ∧
        findBaseline ms = (some b, b.startTime)) := by
  constructor
  · intro h
    exact foldl_baselineStep_all_incomplete ms h (none, 0)
  · induction ms with
    | nil => rintro ⟨m, hm, _⟩; exact absurd hm (by simp)
    | cons x rest ih =>
      intro hcomp
      by_cases hx : x.incompleteReason = ""
      · have hstep : baselineStep (none, 0) x = (some x, x.startTime) := by
          unfold baselineStep
          simp [hx, beats]
        obtain ⟨res, hfold, hcase⟩ := foldl_baselineStep_some rest x
        rcases hcase with ⟨heq, hall⟩ | ⟨l₁, l₂, hms, hc, hlt, h₁, h₂⟩
        · subst heq
          exact ⟨_, [], rest, rfl, hx, by simp, hall,
            by rw [findBaseline, List.foldl_cons, hstep]; exact hfold⟩
        · refine ⟨res, x :: l₁, l₂, by simp [hms], hc, ?_, h₂,
            by rw [findBaseline, List.foldl_cons, hstep]; exact hfold⟩
          intro y hy hyc
          rcases List.mem_cons.mp hy with rfl | hy'
          · exact hlt
          · exact h₁ y hy' hyc
      · have hstep : baselineStep (none, 0) x = (none, 0) := baselineStep_incomplete _ x hx
        have hrest : ∃ m ∈ rest, m.incompleteReason = "" := by
          obtain ⟨m, hm, hmc⟩ := hcomp
          rcases List.mem_cons.mp hm with rfl | hm'
          · exact absurd hmc hx
          · exact ⟨m, hm', hmc⟩
        obtain ⟨b, l₁, l₂, hms, hc, h₁, h₂, hfb⟩ := ih hrest
        refine ⟨b, x :: l₁, l₂, by simp [hms], hc, ?_, h₂, ?_⟩
        · intro y hy hyc
          rcases List.mem_cons.mp hy with rfl | hy'
          · exact absurd hyc hx
          · exact h₁ y hy' hyc
        · rw [findBaseline, List.foldl_cons, hstep]
          exact hfb

/-- C1: whenever at least one complete manifest exists,
`findPreviousSnapshotManifest` returns a complete manifest of maximal start
time as its first element, followed by exactly those incomplete manifests
whose start time is strictly after the baseline's, in input order;
incomplete manifests at or before the baseline's start time are excluded. -/
theorem selectPrevious_with_baseline (ms : List Manifest)
    (h : ∃ m ∈ ms, m.incompleteReason = "") :
    ∃ b, b ∈ ms ∧ b.incompleteReason = "" ∧
      (∀ m ∈ ms, m.incompleteReason = "" → m.startTime ≤ b.startTime) ∧
      findPreviousSnapshotManifest ms =
        b :: ms.filter (fun m =>
          decide (m.incompleteReason ≠ "" ∧ b.startTime < m.startTime)) := by
  obtain ⟨b, l₁, l₂, hms, hc, h₁, h₂, hfb⟩ := (findBaseline_spec ms).2 h
  refine ⟨b, ?_, hc, ?_, ?_⟩
  · rw [hms]; simp
  · intro m hm hmc
    rw [hms] at hm
    rcases List.mem_append.mp hm with hm' | hm''
    · exact le_of_lt (h₁ m hm' hmc)
    · rcases List.mem_cons.mp hm'' with rfl | hrest
      · exact le_refl _
      · exact h₂ m hrest hmc
  · unfold findPreviousSnapshotManifest
    rw [hfb]
    simp

/-- Witness for C1, on the spec's own example
`[complete@10, incomplete@20, incomplete@5]`. -/
theorem selectPrevious_with_baseline_witness :
    ∃ b, b ∈ [Manifest.mk "" 10 "ra", Manifest.mk "canceled" 20 "rb",
              Manifest.mk "canceled" 5 "rc"] ∧ b.incompleteReason = "" ∧
      (∀ m ∈ [Manifest.mk "" 10 "ra", Manifest.mk "canceled" 20 "rb",
              Manifest.mk "canceled" 5 "rc"],
        m.incompleteReason = "" → m.startTime ≤ b.startTime) ∧
      findPreviousSnapshotManifest
          [Manifest.mk "" 10 "ra", Manifest.mk "canceled" 20 "rb",
           Manifest.mk "canceled" 5 "rc"] =
        b :: (List.filter (fun m =>
          decide (m.incompleteReason ≠ "" ∧ b.startTime < m.startTime))
          [Manifest.mk "" 10 "ra", Manifest.mk "canceled" 20 "rb",
           Manifest.mk "canceled" 5 "rc"]) :=
  selectPrevious_with_baseline _ ⟨Manifest.mk "" 10 "ra", by decide, rfl⟩

/-- C8: `findPreviousSnapshotManifest` on the empty list is the empty list,
and on any list with no complete manifest (all start times positive, i.e.
real timestamps, strictly after the zero sentinel) it returns the whole
input list in its original order. -/
theorem selectPrevious_no_baseline :
    findPreviousSnapshotManifest [] = [] ∧
    ∀ ms : List Manifest, (∀ m ∈ ms, m.incompleteReason ≠ "") →
      (∀ m ∈ ms, 0 < m.startTime) →
      findPreviousSnapshotManifest ms = ms := by
  refine ⟨rfl, ?_⟩
  intro ms hinc hpos
  have hfb : findBaseline ms = (none, 0) := (findBaseline_spec ms).1 hinc
  unfold findPreviousSnapshotManifest
  rw [hfb]
  simp only [List.nil_append]
  apply List.filter_eq_self.mpr
  intro m hm
  simp only [decide_eq_true_eq]
  exact ⟨hinc m hm, hpos m hm⟩

/-- Witness for C8, on the spec's example `[incomplete@1, incomplete@2]`. -/
theorem selectPrevious_no_baseline_witness :
    findPreviousSnapshotManifest
        [Manifest.mk "canceled" 1 "r1", Manifest.mk "canceled" 2 "r2"] =
      [Manifest.mk "canceled" 1 "r1", Manifest.mk "canceled" 2 "r2"] :=
  selectPrevious_no_baseline.2 _ (by decide) (by decide)

/-- C10: `findPreviousSnapshotManifest` is a deterministic function of its
input, and when several complete manifests tie for the maximal start time
the earliest one in input order becomes the baseline: the returned head `b`
is a complete manifest such that every complete manifest strictly before it
has a strictly smaller start time and every one after it a start time at
most equal (strictly-after comparison, so later ties never replace it). -/
theorem selectPrevious_deterministic_first_of_ties :
    (∀ ms₁ ms₂ : List Manifest, ms₁ = ms₂ →
       findPreviousSnapshotManifest ms₁ = findPreviousSnapshotManifest ms₂) ∧
    (∀ ms : List Manifest, (∃ m ∈ ms, m.incompleteReason = "") →
      ∃ b l₁ l₂, ms = l₁ ++ b :: l₂ ∧ b.incompleteReason = "" ∧
        (∀ m ∈ l₁, m.incompleteReason = "" → m.startTime < b.startTime) ∧
        (∀ m ∈ l₂, m.incompleteReason = "" → m.startTime ≤ b.startTime) ∧
        (findPreviousSnapshotManifest ms).head? = some b) := by
  constructor
  · intro ms₁ ms₂ h
    rw [h]
  · intro ms h
    obtain ⟨b, l₁, l₂, hms, hc, h₁, h₂, hfb⟩ := (findBaseline_spec ms).2 h
    refine ⟨b, l₁, l₂, hms, hc, h₁, h₂, ?_⟩
    unfold findPreviousSnapshotManifest
    rw [hfb]
    simp

/-- Witness for C10, on a list where two complete manifests share the
maximal start time: the first of the two is selected. -/
theorem selectPrevious_deterministic_witness :
    ∃ b l₁ l₂, ([Manifest.mk "" 5 "a", Manifest.mk "canceled" 7 "x",
                 Manifest.mk "" 5 "c"] : List Manifest) = l₁ ++ b :: l₂ ∧
      b.incompleteReason = "" ∧
      (∀ m ∈ l₁, m.incompleteReason = "" → m.startTime < b.startTime) ∧
      (∀ m ∈ l₂, m.incompleteReason = "" → m.startTime ≤ b.startTime) ∧
      (findPreviousSnapshotManifest
        [Manifest.mk "" 5 "a", Manifest.mk "canceled" 7 "x",
         Manifest.mk "" 5 "c"]).head? = some b :=
  selectPrevious_deterministic_first_of_ties.2 _ ⟨Manifest.mk "" 5 "a", by decide, rfl⟩

/-! The commit phase of `snapshotSingleSource` (cmd/snap.go lines 152-168)

After the upload has produced `manifest`, the Go code reads
`ignoreIdenticalSnapshot` from the effective policy, compares
`previousManifests[0].RootObjectID()` with `manifest.RootObjectID()` when the
flag is set and the list is non-empty, and either returns nil without saving,
or saves the snapshot and then applies the retention policy.  The two backend
calls are modelled by their optional error results, and the steps the code
actually reaches are recorded in a trace, in execution order. -/

/-- A step of the commit phase that the code attempts:
`snapshot.SaveSnapshot` or `policy.ApplyRetentionPolicy`. -/
inductive SnapStep
  | save
  | retention
  deriving Repr, DecidableEq

/-- The guard `len(previousManifests) > 0 && previousManifests[0].RootObjectID() == manifest.RootObjectID()`
from cmd/snap.go lines 153-154: the comparison is against the first element
of the previous-manifest list, with no completeness check. -/
def identicalToFirst (previousManifests : List Manifest) (manifest : Manifest) : Bool :=
  match previousManifests.head? with
  | some p => p.rootObjectID == manifest.rootObjectID
  | none => false

/-- The commit phase of `snapshotSingleSource`: returns the trace of backend
calls attempted (in order) and the error result (`none` means success).
`saveErr` and `retentionErr` are the outcomes the backend would give to the
save and retention calls. -/
def snapshotCommit (ignoreIdenticalSnapshot : Bool) (previousManifests : List Manifest)
    (manifest : Manifest) (saveErr retentionErr : Option String) :
    List SnapStep × Option String :=
  if ignoreIdenticalSnapshot ∧ identicalToFirst previousManifests manifest = true then
    ([], none)
  else
    match saveErr with
    | some e => ([SnapStep.save], some e)
    | none =>
      match retentionErr with
      | some e => ([SnapStep.save, SnapStep.retention], some e)
      | none => ([SnapStep.save, SnapStep.retention], none)

/-- C2 counterexample: with `ignoreIdenticalSnapshots` enabled and a
previous list whose only element is an incomplete manifest (so no baseline,
i.e. no complete manifest, exists in the list) sharing the upload's content
root, the code still skips persisting and returns success — contradicting
the claim that in every case other than "a baseline exists and its root
matches" the manifest is persisted. -/
theorem snapshotCommit_skips_without_baseline :
    (∀ b ∈ [Manifest.mk "interrupted" 5 "root1"], b.incompleteReason ≠ "") ∧
    snapshotCommit true [Manifest.mk "interrupted" 5 "root1"]
        (Manifest.mk "" 6 "root1") none none = ([], none) := by
  constructor
  · decide
  · rfl

/-- C2 (amended): the skip happens exactly when `ignoreIdenticalSnapshots`
is enabled, the previous list is non-empty, and its first element's content
root equals the upload's content root (the first element is the baseline
whenever a baseline exists); in all other cases the manifest is persisted
(the save call is made). -/
theorem snapshotCommit_skip_iff_first_matches (ii : Bool) (prev : List Manifest)
    (m : Manifest) (se re : Option String) :
    ((ii = true ∧ identicalToFirst prev m = true) →
       snapshotCommit ii prev m se re = ([], none)) ∧
    (¬(ii = true ∧ identicalToFirst prev m = true) →
       SnapStep.save ∈ (snapshotCommit ii prev m se re).1) := by
  constructor
  · intro h
    unfold snapshotCommit
    rw [if_pos ⟨by simp [h.1], h.2⟩]
  · intro h
    have h' : ¬(ii = true ∧ identicalToFirst prev m = true) := h
    unfold snapshotCommit
    rw [if_neg (by simpa using h')]
    rcases se with _ | e
    · rcases re with _ | e'
      · simp
      · simp
    · simp

/-- Witness for the amended C2: skip on a matching first root, save on a
differing one. -/
theorem snapshotCommit_skip_iff_first_matches_witness :
    snapshotCommit true [Manifest.mk "" 5 "r"] (Manifest.mk "" 6 "r") none none
      = ([], none) ∧
    SnapStep.save ∈ (snapshotCommit true [Manifest.mk "" 5 "r"]
      (Manifest.mk "" 6 "other") none none).1 :=
  ⟨(snapshotCommit_skip_iff_first_matches true [Manifest.mk "" 5 "r"]
      (Manifest.mk "" 6 "r") none none).1 ⟨rfl, by decide⟩,
   (snapshotCommit_skip_iff_first_matches true [Manifest.mk "" 5 "r"]
      (Manifest.mk "" 6 "other") none none).2 (by decide)⟩

/-- C5: the retention call is made only when the save call has succeeded,
and then strictly after it (the trace is exactly save-then-retention); with
`ignoreIdenticalSnapshots` disabled the save call is always made, whatever
the roots, and a successful save is always followed by the retention call. -/
theorem snapshotCommit_retention_after_save (ii : Bool) (prev : List Manifest)
    (m : Manifest) (se re : Option String) :
    (SnapStep.retention ∈ (snapshotCommit ii prev m se re).1 →
       se = none ∧
       (snapshotCommit ii prev m se re).1 = [SnapStep.save, SnapStep.retention]) ∧
    (ii = false →
       SnapStep.save ∈ (snapshotCommit ii prev m se re).1 ∧
       (se = none →
         (snapshotCommit ii prev m se re).1 = [SnapStep.save, SnapStep.retention])) := by
  unfold snapshotCommit
  by_cases hskip : ii = true ∧ identicalToFirst prev m = true
  · rw [if_pos hskip]
    refine ⟨by simp, ?_⟩
    intro hii
    rw [hii] at hskip
    simp at hskip
  · rw [if_neg hskip]
    rcases se with _ | e
    · rcases re with _ | e'
      · exact ⟨fun _ => ⟨rfl, rfl⟩, fun _ => ⟨by simp, fun _ => rfl⟩⟩
      · exact ⟨fun _ => ⟨rfl, rfl⟩, fun _ => ⟨by simp, fun _ => rfl⟩⟩
    · refine ⟨?_, fun _ => ⟨by simp, fun hse => by cases hse⟩⟩
      intro hmem
      simp at hmem

/-- Witness for C5: with the flag disabled and matching roots, the code
still saves and then applies retention. -/
theorem snapshotCommit_retention_after_save_witness :
    SnapStep.save ∈ (snapshotCommit false [Manifest.mk "" 5 "r"]
        (Manifest.mk "" 6 "r") none none).1 ∧
    (snapshotCommit false [Manifest.mk "" 5 "r"]
        (Manifest.mk "" 6 "r") none none).1 = [SnapStep.save, SnapStep.retention] :=
  ⟨((snapshotCommit_retention_after_save false [Manifest.mk "" 5 "r"]
      (Manifest.mk "" 6 "r") none none).2 rfl).1,
   ((snapshotCommit_retention_after_save false [Manifest.mk "" 5 "r"]
      (Manifest.mk "" 6 "r") none none).2 rfl).2 rfl⟩

/-! The multi-source loop of `createSnapshot` (cmd/snap.go lines 103-125)

The write-session callback iterates over `op.Config.Dirs` in order; for each
directory it builds the local filesystem entry and runs
`snapshotSingleSource`, returning the first error immediately, which aborts
the whole session.  `process` abstracts the per-directory body
(`localfs.NewEntry` followed by `snapshotSingleSource`), yielding `none` on
success or the error it returned.  The function returns the directories that
were actually processed, in order, together with the final result. -/

def createSnapshotLoop (process : String → Option String) :
    List String → List String × Option String
  | [] => ([], none)
  | d :: rest =>
    match process d with
    | some e => ([d], some e)
    | none =>
      let r := createSnapshotLoop process rest
      (d :: r.1, r.2)

/-- C6: the snapshot loop processes the declared directories sequentially in
list order and returns the first per-source error immediately: when the
directories are `l₁ ++ [d] ++ l₂` with every source in `l₁` succeeding and
`d` failing with `e`, exactly `l₁ ++ [d]` are processed (no source of `l₂`
is ever uploaded or committed) and the loop returns `e`. -/
theorem createSnapshot_fail_fast (process : String → Option String)
    (l₁ : List String) (d : String) (l₂ : List String) (e : String)
    (h₁ : ∀ x ∈ l₁, process x = none) (hd : process d = some e) :
    createSnapshotLoop process (l₁ ++ d :: l₂) = (l₁ ++ [d], some e) := by
  induction l₁ with
  | nil =>
    simp only [List.nil_append]
    unfold createSnapshotLoop
    rw [hd]
  | cons x rest ih =>
    have hx : process x = none := h₁ x (by simp)
    have ih' := ih (fun y hy => h₁ y (by simp [hy]))
    simp only [List.cons_append]
    unfold createSnapshotLoop
    rw [hx]
    simp [ih']

/-- Witness for C6: two sources, the first fails — the second is never
processed. -/
theorem createSnapshot_fail_fast_witness :
    createSnapshotLoop
        (fun s => if s = "assets" then some "upload failed" else none)
        ["assets", "textures"] = (["assets"], some "upload failed") :=
  createSnapshot_fail_fast
    (fun s => if s = "assets" then some "upload failed" else none)
    [] "assets" ["textures"] "upload failed" (by simp) (by simp)

/-! The create path of `init` (cmd/init.go lines 125-164)

`createRepo` runs: `ensureEmpty` on the storage, `RepoInitialize`, the
in-memory assignment of a fresh gasset id, `connectRepo`, `initPolicy`, and
finally `util.UpdateGassetId`, which persists the id into the project's
`.gasset` file.  Each backend call is modelled by its optional error result;
the trace records the steps that completed successfully, in execution
order.  The state carries the persisted gasset id (the `.gasset` file) and
the in-memory `op.Config.GassetId`. -/

/-- A step of the create path that completed successfully. -/
inductive InitStep
  | initRepo
  | connect
  | setPolicy
  | persistIdentity
  deriving Repr, DecidableEq

/-- The durable-identity state around `createRepo`: the gasset id persisted
in the `.gasset` project file, and the in-memory `op.Config.GassetId`. -/
structure GassetState where
  persistedGassetId : String
  configGassetId : String
  deriving Repr, DecidableEq

/-- `ensureEmpty` (cmd/init.go lines 149-164): `ListBlobs` aborts with
`hasDataError` at the first blob the listing yields, which maps to the
"found existing data in storage location" error; with no blobs, a fault of
the listing itself is wrapped as "error listing blobs", and otherwise the
check passes. -/
def ensureEmpty (blobs : List String) (listFault : Option String) : Option String :=
  if blobs.isEmpty then
    match listFault with
    | some e => some ("error listing blobs: " ++ e)
    | none => none
  else some "found existing data in storage location"

/-- `createRepo` (cmd/init.go lines 125-146): ensure the storage is empty,
initialize the repository, assign a fresh gasset id in memory, reconnect,
apply the default policy, and only then persist the gasset id.  Returns the
trace of completed steps, the error result, and the final state. -/
def createRepo (blobs : List String) (listFault : Option String)
    (initErr connectErr policyErr persistErr : Option String)
    (newId : String) (st : GassetState) :
    List InitStep × Option String × GassetState :=
  match ensureEmpty blobs listFault with
  | some e => ([], some e, st)
  | none =>
    match initErr with
    | some e => ([], some e, st)
    | none =>
      let st₁ : GassetState := { st with configGassetId := newId }
      match connectErr with
      | some e => ([InitStep.initRepo], some e, st₁)
      | none =>
        match policyErr with
        | some e => ([InitStep.initRepo, InitStep.connect], some e, st₁)
        | none =>
          match persistErr with
          | some e => ([InitStep.initRepo, InitStep.connect, InitStep.setPolicy],
                       some e, st₁)
          | none =>
            ([InitStep.initRepo, InitStep.connect, InitStep.setPolicy,
              InitStep.persistIdentity], none,
             { st₁ with persistedGassetId := newId })

/-- `GenerateRandomString` (util/rand.go): index the 62-letter alphanumeric
alphabet once per output position.  `draws` gives the successive results of
`randIntn(len(letters))` (each below 62 in Go; out-of-range values fall back
to the default character here). -/
def letters : List Char :=
  "0123456789abcdefghijklmnopqrstuvwxyzABCDEFGHIJKLMNOPQRSTUVWXYZ".toList

def GenerateRandomString (n : Nat) (draws : Nat → Nat) : String :=
  String.mk ((List.range n).map (fun i => letters.getD (draws i) '0'))

lemma GenerateRandomString_length (n : Nat) (draws : Nat → Nat) :
    (GenerateRandomString n draws).length = n := by
  simp [GenerateRandomString, String.length]

/-- C3: against a storage state containing at least one blob, `createRepo`
fails with the existing-data error straight from `ensureEmpty`: no backend
initialization, no policy write, no identity persistence happens (empty
trace), and the state — in particular the persisted gasset id — is exactly
the input state. -/
theorem createRepo_already_initialized (blobs : List String)
    (listFault initErr connectErr policyErr persistErr : Option String)
    (newId : String) (st : GassetState) (h : blobs ≠ []) :
    createRepo blobs listFault initErr connectErr policyErr persistErr newId st =
      ([], some "found existing data in storage location", st) := by
  have he : ensureEmpty blobs listFault =
      some "found existing data in storage location" := by
    unfold ensureEmpty
    rw [if_neg (by simpa using h)]
  unfold createRepo
  rw [he]

/-- Witness for C3: one blob in storage, everything else healthy, empty
persisted identity — the create path fails and the identity stays empty. -/
theorem createRepo_already_initialized_witness :
    createRepo ["p0123456789abcdef"] none none none none none "a1b2c3d4"
        ⟨"", ""⟩ =
      ([], some "found existing data in storage location", ⟨"", ""⟩) :=
  createRepo_already_initialized ["p0123456789abcdef"] none none none none none
    "a1b2c3d4" ⟨"", ""⟩ (by simp)

/-- C4: the identity is persisted only when repository initialization,
reconnection and the default-policy application have all succeeded before
it, in that order (the trace is then exactly init-connect-policy-persist
with no error); any failure leaves the persisted identity unchanged; and
against empty storage with all steps succeeding the create path succeeds
and persists the freshly generated identity, which is non-empty. -/
theorem createRepo_persists_last (blobs : List String)
    (listFault initErr connectErr policyErr persistErr : Option String)
    (draws : Nat → Nat) (st : GassetState) :
    (InitStep.persistIdentity ∈ (createRepo blobs listFault initErr connectErr
        policyErr persistErr (GenerateRandomString 8 draws) st).1 →
       (createRepo blobs listFault initErr connectErr policyErr persistErr
         (GenerateRandomString 8 draws) st).1 =
         [InitStep.initRepo, InitStep.connect, InitStep.setPolicy,
          InitStep.persistIdentity] ∧
       (createRepo blobs listFault initErr connectErr policyErr persistErr
         (GenerateRandomString 8 draws) st).2.1 = none) ∧
    ((createRepo blobs listFault initErr connectErr policyErr persistErr
        (GenerateRandomString 8 draws) st).2.1 ≠ none →
       (createRepo blobs listFault initErr connectErr policyErr persistErr
         (GenerateRandomString 8 draws) st).2.2.persistedGassetId =
         st.persistedGassetId) ∧
    (blobs = [] → listFault = none → initErr = none → connectErr = none →
     policyErr = none → persistErr = none →
       (createRepo blobs listFault initErr connectErr policyErr persistErr
         (GenerateRandomString 8 draws) st).2.1 = none ∧
       (createRepo blobs listFault initErr connectErr policyErr persistErr
         (GenerateRandomString 8 draws) st).2.2.persistedGassetId =
         GenerateRandomString 8 draws ∧
       (createRepo blobs listFault initErr connectErr policyErr persistErr
         (GenerateRandomString 8 draws) st).2.2.persistedGassetId ≠ "") := by
  have hlen : (GenerateRandomString 8 draws).length = 8 :=
    GenerateRandomString_length 8 draws
  have hne : GenerateRandomString 8 draws ≠ "" := by
    intro hempty
    rw [hempty] at hlen
    simp at hlen
  unfold createRepo ensureEmpty
  rcases hb : blobs with _ | ⟨x, xs⟩
  · rcases listFault with _ | lf
    · rcases initErr with _ | ie
      · rcases connectErr with _ | ce
        · rcases policyErr with _ | pe
          · rcases persistErr with _ | qe
            · exact ⟨fun _ => ⟨rfl, rfl⟩, fun h => absurd rfl h,
                fun _ _ _ _ _ _ => ⟨rfl, rfl, hne⟩⟩
            · exact ⟨by simp, fun _ => rfl, fun _ _ _ _ _ hq => by cases hq⟩
          · exact ⟨by simp, fun _ => rfl, fun _ _ _ _ hp _ => by cases hp⟩
        · exact ⟨by simp, fun _ => rfl, fun _ _ _ hc _ _ => by cases hc⟩
      · exact ⟨by simp, fun _ => rfl, fun _ _ hi _ _ _ => by cases hi⟩
    · exact ⟨by simp, fun _ => rfl, fun _ hl _ _ _ _ => by cases hl⟩
  · exact ⟨by simp, fun _ => rfl, fun hblobs _ _ _ _ _ => by cases hblobs⟩

/-- Witness for C4: empty storage, all backend steps succeed — the create
path completes and persists the generated identity. -/
theorem createRepo_persists_last_witness :
    (createRepo [] none none none none none
        (GenerateRandomString 8 (fun _ => 0)) ⟨"", ""⟩).2.1 = none ∧
    (createRepo [] none none none none none
        (GenerateRandomString 8 (fun _ => 0)) ⟨"", ""⟩).2.2.persistedGassetId =
      GenerateRandomString 8 (fun _ => 0) ∧
    (createRepo [] none none none none none
        (GenerateRandomString 8 (fun _ => 0)) ⟨"", ""⟩).2.2.persistedGassetId ≠ "" :=
  (createRepo_persists_last [] none none none none none (fun _ => 0)
    ⟨"", ""⟩).2.2 rfl rfl rfl rfl rfl rfl

/-! Locator `GetGitWorkingDirectory` (util/config.go lines 70-79)

The Go code stats `filepath.Join(path, ".git")` and evaluates
`os.IsNotExist(err) || !info.IsDir()`:
* `err` not-exist: short-circuits to the ascent without touching `info`;
* `err = nil`, marker is a directory: the condition is false, return `path`;
* `err = nil`, marker is a file: `!info.IsDir()` is true, ascend;
* any other `err`: `os.IsNotExist(err)` is false and `info` is nil, so
  `info.IsDir()` dereferences nil — a panic.
In the ascent branch, `filepath.Dir(path)` is compared with `path`; equality
(the filesystem root) yields the "not a git repository" error, otherwise the
function recurses on the parent.

A directory is modelled as its component list with the innermost component
first, so the parent is the tail and the root is `[]` (its parent is itself,
as `filepath.Dir` fixes the root).  `stat` is the abstract filesystem: the
outcome of `os.Stat` on a component list. -/

/-- Outcome of `os.Stat` on a path: no entry (`err` not-exist), a directory,
a plain file, or a stat failure that is neither nil nor not-exist (for
example permission denied). -/
inductive StatRes
  | notExist
  | isDir
  | isFile
  | errOther
  deriving Repr, DecidableEq

/-- Result of `GetGitWorkingDirectory`: the found root, the
"not a git repository" error, or the nil-pointer panic. -/
inductive GitDirResult
  | found (p : List String)
  | notARepo
  | panics
  deriving Repr, DecidableEq

/-- `GetGitWorkingDirectory`, on paths as innermost-first component lists:
`".git" :: path` is the marker path `filepath.Join(path, ".git")`, and the
parent of `c :: rest` is `rest`; at the root `[]` the parent equals the path
and the ascent stops with the error. -/
def GetGitWorkingDirectory (stat : List String → StatRes) :
    List String → GitDirResult
  | [] =>
    match stat [".git"] with
    | StatRes.errOther => GitDirResult.panics
    | StatRes.isDir => GitDirResult.found []
    | _ => GitDirResult.notARepo
  | c :: rest =>
    match stat (".git" :: c :: rest) with
    | StatRes.errOther => GitDirResult.panics
    | StatRes.isDir => GitDirResult.found (c :: rest)
    | _ => GetGitWorkingDirectory stat rest

/-- The chain of directories inspected by the ascent: the path itself, its
parent, and so on down to the root `[]`. -/
def ancestors : List String → List (List String)
  | [] => [[]]
  | c :: rest => (c :: rest) :: ancestors rest

lemma self_mem_ancestors (path : List String) : path ∈ ancestors path := by
  cases path with
  | nil => simp [ancestors]
  | cons c rest => simp [ancestors]

lemma getGit_ascend (stat : List String → StatRes) (c : String) (rest : List String)
    (hs : stat (".git" :: c :: rest) = StatRes.notExist ∨
          stat (".git" :: c :: rest) = StatRes.isFile) :
    GetGitWorkingDirectory stat (c :: rest) = GetGitWorkingDirectory stat rest := by
  rcases hs with hs | hs <;>
    · conv_lhs => rw [GetGitWorkingDirectory]
      rw [hs]

/-- C7: provided no stat along the ascent fails abnormally, the locator
returns the first ancestor (starting at the path itself) whose `.git`
marker is a directory — a marker present as a plain file is treated as
absent and the ascent continues — and when no ancestor has a directory
marker it fails with the "not a git repository" error, raised exactly at
the root, the one directory that equals its own parent. -/
theorem getGitWorkingDirectory_first_marked_ancestor
    (stat : List String → StatRes) (path : List String)
    (hok : ∀ a ∈ ancestors path, stat (".git" :: a) ≠ StatRes.errOther) :
    ((∃ a ∈ ancestors path, stat (".git" :: a) = StatRes.isDir) →
      ∃ l₁ a l₂, ancestors path = l₁ ++ a :: l₂ ∧
        (∀ b ∈ l₁, stat (".git" :: b) ≠ StatRes.isDir) ∧
        stat (".git" :: a) = StatRes.isDir ∧
        GetGitWorkingDirectory stat path = GitDirResult.found a) ∧
    ((∀ a ∈ ancestors path, stat (".git" :: a) ≠ StatRes.isDir) →
      GetGitWorkingDirectory stat path = GitDirResult.notARepo) := by
  induction path with
  | nil =>
    constructor
    · rintro ⟨a, ha, hdir⟩
      have ha' : a = [] := by simpa [ancestors] using ha
      subst ha'
      refine ⟨[], [], [], rfl, by simp, hdir, ?_⟩
      unfold GetGitWorkingDirectory
      rw [hdir]
    · intro hnone
      have hd : stat [".git"] ≠ StatRes.isDir := hnone [] (by simp [ancestors])
      have he : stat [".git"] ≠ StatRes.errOther := hok [] (by simp [ancestors])
      unfold GetGitWorkingDirectory
      rcases hs : stat [".git"] with _ | _ | _ | _
      · rfl
      · exact absurd hs hd
      · rfl
      · exact absurd hs he
  | cons c rest ih =>
    have hmem : (c :: rest) ∈ ancestors (c :: rest) := self_mem_ancestors _
    have hsub : ∀ a ∈ ancestors rest, a ∈ ancestors (c :: rest) := by
      intro a ha
      simp [ancestors, ha]
    have hok' : ∀ a ∈ ancestors rest, stat (".git" :: a) ≠ StatRes.errOther :=
      fun a ha => hok a (hsub a ha)
    have ihspec := ih hok'
    constructor
    · rintro ⟨a, ha, hdir⟩
      rcases hs : stat (".git" :: c :: rest) with _ | _ | _ | _
      · -- marker absent at the path itself: ascend
        have hrec := getGit_ascend stat c rest (Or.inl hs)
        have ha' : a ∈ ancestors rest := by
          rcases (by simpa [ancestors] using ha : a = c :: rest ∨ a ∈ ancestors rest) with
            rfl | h'
          · exact absurd hdir (by rw [hs]; simp)
          · exact h'
        obtain ⟨l₁, a', l₂, hdec, hl₁, hdir', hres⟩ := ihspec.1 ⟨a, ha', hdir⟩
        exact ⟨(c :: rest) :: l₁, a', l₂, by simp [ancestors, hdec],
          by
            intro b hb
            rcases List.mem_cons.mp hb with rfl | hb'
            · rw [hs]; simp
            · exact hl₁ b hb',
          hdir', by rw [hrec]; exact hres⟩
      · -- marker is a directory here: found immediately
        refine ⟨[], c :: rest, ancestors rest, by simp [ancestors], by simp, hs, ?_⟩
        unfold GetGitWorkingDirectory
        rw [hs]
      · -- marker is a plain file: treated as absent, ascend
        have hrec := getGit_ascend stat c rest (Or.inr hs)
        have ha' : a ∈ ancestors rest := by
          rcases (by simpa [ancestors] using ha : a = c :: rest ∨ a ∈ ancestors rest) with
            rfl | h'
          · exact absurd hdir (by rw [hs]; simp)
          · exact h'
        obtain ⟨l₁, a', l₂, hdec, hl₁, hdir', hres⟩ := ihspec.1 ⟨a, ha', hdir⟩
        exact ⟨(c :: rest) :: l₁, a', l₂, by simp [ancestors, hdec],
          by
            intro b hb
            rcases List.mem_cons.mp hb with rfl | hb'
            · rw [hs]; simp
            · exact hl₁ b hb',
          hdir', by rw [hrec]; exact hres⟩
      · exact absurd hs (hok _ hmem)
    · intro hnone
      have hself : stat (".git" :: c :: rest) ≠ StatRes.isDir := hnone _ hmem
      rcases hs : stat (".git" :: c :: rest) with _ | _ | _ | _
      · rw [getGit_ascend stat c rest (Or.inl hs)]
        exact ihspec.2 (fun a ha => hnone a (hsub a ha))
      · exact absurd hs hself
      · rw [getGit_ascend stat c rest (Or.inr hs)]
        exact ihspec.2 (fun a ha => hnone a (hsub a ha))
      · exact absurd hs (hok _ hmem)

/-- Witness for C7: a filesystem whose only directory marker sits at
`/repo`; the locator started at `/repo/sub/deep` (innermost-first
components) ascends past a plain-file marker at `/repo/sub` and returns
`/repo`. -/
theorem getGitWorkingDirectory_witness :
    ∃ l₁ a l₂,
      ancestors ["deep", "sub", "repo"] = l₁ ++ a :: l₂ ∧
      (∀ b ∈ l₁,
        (fun p => if p = [".git", "repo"] then StatRes.isDir
          else if p = [".git", "sub", "repo"] then StatRes.isFile
          else StatRes.notExist) (".git" :: b) ≠ StatRes.isDir) ∧
      (fun p => if p = [".git", "repo"] then StatRes.isDir
        else if p = [".git", "sub", "repo"] then StatRes.isFile
        else StatRes.notExist) (".git" :: a) = StatRes.isDir ∧
      GetGitWorkingDirectory
        (fun p => if p = [".git", "repo"] then StatRes.isDir
          else if p = [".git", "sub", "repo"] then StatRes.isFile
          else StatRes.notExist) ["deep", "sub", "repo"] = GitDirResult.found a :=
  (getGitWorkingDirectory_first_marked_ancestor
    (fun p => if p = [".git", "repo"] then StatRes.isDir
      else if p = [".git", "sub", "repo"] then StatRes.isFile
      else StatRes.notExist) ["deep", "sub", "repo"] (by decide)).1
    ⟨["repo"], by decide, by decide⟩

/-- C9: the locator is not total over all stat outcomes — when `os.Stat` on
the `.git` marker fails with an error that is neither nil nor not-exist,
the nil `FileInfo` has `IsDir` invoked on it and the function panics
instead of returning an error. -/
theorem getGitWorkingDirectory_panics :
    ∃ (stat : List String → StatRes) (path : List String),
      GetGitWorkingDirectory stat path = GitDirResult.panics :=
  ⟨fun _ => StatRes.errOther, ["project"], rfl⟩

end GitGasset
